import Mathlib

/-!
Verification of the deduplicated multi-source ingestion and delivery
pipeline of `news_bot.py` (space-news-slack-bot).

Shallow embedding conventions:
* External I/O (article download via `newspaper`, the Slack webhook POST,
  the cache file) is modelled by explicit oracles: `Env.fetch` gives the
  outcome of `art.download(); art.parse()` for a URL (`Except.error e`
  models any exception raised inside that attempt), and `Env.notify`
  tells whether `send_slack` succeeds (an `Except`/`False` outcome models
  `raise_for_status` firing or the POST raising).
* `hash_url` (news_bot.py line 56) is `hashlib.sha1(url.encode()).hexdigest()`;
  the pipeline uses it only as a deterministic `String → String`
  fingerprint, so it is threaded through the orchestrator as an explicit
  function parameter `h`.
* Python strings are Lean `String`s; slicing, word splitting and joining
  are embedded character-exactly below.
-/

namespace NewsBot

/-- Result of a successful `art.download(); art.parse()` in `summarise`
(news_bot.py line 164): the page title (`art.title`, `""` models a
falsy/absent title) and extracted body text (`art.text`). -/
structure FetchSuccess where
  title : String
  text : String
deriving DecidableEq, Repr

/-- Python `s.replace("\n", " ")` for the one-character pattern `"\n"`:
a character-wise map sending each newline to a space
(news_bot.py line 166). -/
def replaceNewlines (s : String) : String :=
  String.mk (s.data.map fun c => if c = '\n' then ' ' else c)

/-- Python slicing `s[:n]` by code points (news_bot.py line 171,
`fallback_text[:500]`). -/
def pyTrunc (s : String) (n : Nat) : String :=
  String.mk (s.data.take n)

/-- Core of Python `str.split()` (no separator): split a character list
into the maximal runs of non-whitespace characters, discarding all
whitespace; empty strings never appear in the result. -/
def splitWords : List Char → List (List Char)
  | [] => []
  | [c] => if c.isWhitespace then [] else [[c]]
  | c :: d :: cs =>
    if c.isWhitespace then splitWords (d :: cs)
    else if d.isWhitespace then [c] :: splitWords (d :: cs)
    else
      match splitWords (d :: cs) with
      | [] => [[c]]
      | w :: ws => (c :: w) :: ws

/-- Python `str.split()` on a string (news_bot.py line 166). -/
def pyWords (s : String) : List String :=
  (splitWords s.data).map String.mk

/-- Join a list of character-list words with single spaces. -/
def joinWords : List (List Char) → List Char
  | [] => []
  | [w] => w
  | w :: ws => w ++ ' ' :: joinWords ws

/-- Python `" ".join(ws)` (news_bot.py line 167). -/
def joinSp (ws : List String) : String :=
  String.mk (joinWords (ws.map String.data))

/-- Python `preview[-1] in ".!?"` for a non-empty string; `false` on the
empty string (the Python code guards with `if preview`). -/
def endsSentence (s : String) : Bool :=
  match s.data.getLast? with
  | some c => c = '.' || c = '!' || c = '?'
  | none => false

/-- News_bot.py lines 173-174: `if preview and preview[-1] not in ".!?":
preview += "…"`. -/
def addEllipsis (s : String) : String :=
  if s ≠ "" && !endsSentence s then s ++ "…" else s

/-- `summarise(url, fallback_text)` (news_bot.py lines 156-175).
`dl` is the outcome of the fetch-and-extract attempt
(`art.download(); art.parse()`); `Except.error` models any exception
raised anywhere inside that attempt.  The Python `try/except Exception`
catches every such error and takes the fallback branch, so the embedding
is a total function returning the `(title, preview)` pair. -/
def summarise (dl : Except String FetchSuccess) (fallback_text : String) :
    String × String :=
  let tp : String × String :=
    match dl with
    | .ok art =>
      -- title = art.title or "Untitled"
      let title := if art.title = "" then "Untitled" else art.title
      -- words = art.text.replace("\n", " ").split()
      let words := pyWords (replaceNewlines art.text)
      -- preview = " ".join(words[:100]) or "(no preview)"
      let joined := joinSp (words.take 100)
      (title, if joined = "" then "(no preview)" else joined)
    | .error _ =>
      -- title = "Untitled (feed)"; preview = fallback_text[:500] or "(no preview)"
      let t := pyTrunc fallback_text 500
      ("Untitled (feed)", if t = "" then "(no preview)" else t)
  (tp.1, addEllipsis tp.2)

/-- One candidate article reference as seen by `main` (news_bot.py
lines 196-199): either a feedparser-style entry carrying `link` and
`summary` attributes, or a bare URL string (then `summary` is `""`,
exactly what `getattr(entry, "summary", "")` yields). -/
structure Entry where
  url : String
  summary : String
deriving DecidableEq, Repr

/-- The external world of one run: `fetch url` is the outcome of the
fetch-and-extract attempt inside `summarise` for that URL, and
`notify title preview url` tells whether `send_slack(title, preview, url)`
(news_bot.py lines 179-185) returns normally (`false` models
`requests.post` raising or `raise_for_status` firing on a non-2xx
response). -/
structure Env where
  fetch : String → Except String FetchSuccess
  notify : String → String → String → Bool

/-- In-memory orchestrator state during `main` (news_bot.py lines
188-216): the accumulated `new_seen` identity set, plus the list of
notifications successfully delivered so far (title, preview, url), in
delivery order. -/
structure RunState where
  newSeen : Finset String
  notifications : List (String × String × String)
deriving DecidableEq

/-- Body of the inner loop of `main` (news_bot.py lines 196-210) for one
candidate: compute `key = hash_url(url)` (threaded as `h`); skip when the
key is in the persisted or accumulated seen set; otherwise resolve via
`summarise` and call `send_slack` — on success append the notification
and add the key to `new_seen`, on failure (the `except` branch) log and
leave the state unchanged. -/
def processEntry (h : String → String) (env : Env) (seen : Finset String)
    (st : RunState) (e : Entry) : RunState :=
  if h e.url ∈ seen ∨ h e.url ∈ st.newSeen then st
  else if env.notify (summarise (env.fetch e.url) e.summary).1
      (summarise (env.fetch e.url) e.summary).2 e.url then
    { newSeen := insert (h e.url) st.newSeen,
      notifications := st.notifications ++
        [((summarise (env.fetch e.url) e.summary).1,
          (summarise (env.fetch e.url) e.summary).2, e.url)] }
  else st

/-- `main()` (news_bot.py lines 188-216): load the seen set, iterate the
scrapers in order and their candidates in order, then persist
`seen.union(new_seen)` in one `save_cache` write at run end.  `sources`
is the list of candidate lists produced by `SCRAPER_FUNCS`; the result is
the final run state together with the set handed to `save_cache`. -/
def main (h : String → String) (env : Env) (sources : List (List Entry))
    (seen : Finset String) : RunState × Finset String :=
  let final := sources.foldl
    (fun st entries => entries.foldl (processEntry h env seen) st) ⟨∅, []⟩
  (final, seen ∪ final.newSeen)

/-- `load_cache()` (news_bot.py lines 46-50).  `isfile` is
`os.path.isfile(CACHE_FILE)`; `readAndParse` is the outcome of
`set(json.load(f))` on the opened file (`Except.error` models an
unreadable file or corrupt JSON raising).  The body has no exception
handler, so such an error propagates out of `load_cache`. -/
def load_cache (isfile : Bool)
    (readAndParse : Except String (List String)) :
    Except String (Finset String) :=
  if isfile then
    match readAndParse with
    | .ok ids => .ok ids.toFinset
    | .error err => .error err
  else .ok ∅

/-- A word as produced by `splitWords`: non-empty and whitespace-free. -/
def goodWord (w : List Char) : Prop :=
  w ≠ [] ∧ ∀ c ∈ w, c.isWhitespace = false

lemma splitWords_ws_cons {c : Char} (hc : c.isWhitespace = true)
    (t : List Char) : splitWords (c :: t) = splitWords t := by
  cases t with
  | nil => simp [splitWords, hc]
  | cons d cs => simp [splitWords, hc]

lemma splitWords_single {w : List Char} (hw : goodWord w) :
    splitWords w = [w] := by
  induction w with
  | nil => exact absurd rfl hw.1
  | cons c tail ih =>
    have hc : c.isWhitespace = false := hw.2 c (List.mem_cons_self _ _)
    cases tail with
    | nil => simp [splitWords, hc]
    | cons d cs =>
      have hd : d.isWhitespace = false :=
        hw.2 d (List.mem_cons_of_mem _ (List.mem_cons_self _ _))
      have htail : goodWord (d :: cs) :=
        ⟨List.cons_ne_nil _ _, fun x hx => hw.2 x (List.mem_cons_of_mem _ hx)⟩
      simp [splitWords, hc, hd, ih htail]

lemma splitWords_word_space {w : List Char} (hw : goodWord w)
    (t : List Char) : splitWords (w ++ ' ' :: t) = w :: splitWords t := by
  induction w with
  | nil => exact absurd rfl hw.1
  | cons c tail ih =>
    have hc : c.isWhitespace = false := hw.2 c (List.mem_cons_self _ _)
    cases tail with
    | nil =>
      have : splitWords (' ' :: t) = splitWords t :=
        splitWords_ws_cons (by decide) t
      simp [splitWords, hc, this]
    | cons d cs =>
      have hd : d.isWhitespace = false :=
        hw.2 d (List.mem_cons_of_mem _ (List.mem_cons_self _ _))
      have htail : goodWord (d :: cs) :=
        ⟨List.cons_ne_nil _ _, fun x hx => hw.2 x (List.mem_cons_of_mem _ hx)⟩
      have := ih htail
      simp only [List.cons_append] at this ⊢
      simp [splitWords, hc, hd, this]

lemma splitWords_joinWords {ws : List (List Char)}
    (h : ∀ w ∈ ws, goodWord w) : splitWords (joinWords ws) = ws := by
  induction ws with
  | nil => simp [joinWords, splitWords]
  | cons w tail ih =>
    cases tail with
    | nil =>
      simpa [joinWords] using splitWords_single (h w (List.mem_cons_self _ _))
    | cons x rest =>
      have hjoin : joinWords (w :: x :: rest) = w ++ ' ' :: joinWords (x :: rest) := rfl
      rw [hjoin, splitWords_word_space (h w (List.mem_cons_self _ _)),
        ih (fun v hv => h v (List.mem_cons_of_mem _ hv))]

lemma splitWords_joinWords_snoc {ws : List (List Char)}
    (h : ∀ w ∈ ws, goodWord w) (hne : ws ≠ []) {c : Char}
    (hc : c.isWhitespace = false) :
    (splitWords (joinWords ws ++ [c])).length = ws.length := by
  induction ws with
  | nil => exact absurd rfl hne
  | cons w tail ih =>
    cases tail with
    | nil =>
      have hw := h w (List.mem_cons_self _ _)
      have hgood : goodWord (w ++ [c]) := by
        refine ⟨by simp, fun x hx => ?_⟩
        rcases List.mem_append.mp hx with hx | hx
        · exact hw.2 x hx
        · simp at hx; subst hx; exact hc
      simp [joinWords, splitWords_single hgood]
    | cons x rest =>
      have hjoin : joinWords (w :: x :: rest) = w ++ ' ' :: joinWords (x :: rest) := rfl
      have hstep :
          joinWords (w :: x :: rest) ++ [c]
            = w ++ ' ' :: (joinWords (x :: rest) ++ [c]) := by
        simp [hjoin]
      rw [hstep, splitWords_word_space (h w (List.mem_cons_self _ _))]
      simp [ih (fun v hv => h v (List.mem_cons_of_mem _ hv)) (List.cons_ne_nil _ _)]

lemma splitWords_good : ∀ (l : List Char), ∀ w ∈ splitWords l, goodWord w := by
  intro l
  induction l with
  | nil => intro w hw; simp [splitWords] at hw
  | cons c tail ih =>
    intro w hw
    cases tail with
    | nil =>
      by_cases hc : c.isWhitespace = true
      · simp [splitWords, hc] at hw
      · simp only [Bool.not_eq_true] at hc
        simp [splitWords, hc] at hw
        subst hw
        exact ⟨List.cons_ne_nil _ _, by simpa using hc⟩
    | cons d cs =>
      by_cases hc : c.isWhitespace = true
      · rw [splitWords_ws_cons hc] at hw
        exact ih w hw
      · simp only [Bool.not_eq_true] at hc
        by_cases hd : d.isWhitespace = true
        · simp [splitWords, hc, hd] at hw
          rcases hw with hw | hw
          · subst hw; exact ⟨List.cons_ne_nil _ _, by simpa using hc⟩
          · exact ih w hw
        · simp only [Bool.not_eq_true] at hd
          simp only [splitWords, hc, hd, Bool.false_eq_true, if_false] at hw
          rcases hrec : splitWords (d :: cs) with _ | ⟨v, vs⟩
          · rw [hrec] at hw
            simp at hw
            subst hw
            exact ⟨List.cons_ne_nil _ _, by simpa using hc⟩
          · rw [hrec] at hw
            simp at hw
            rcases hw with hw | hw
            · subst hw
              have hv : goodWord v := ih v (by rw [hrec]; exact List.mem_cons_self _ _)
              refine ⟨List.cons_ne_nil _ _, fun x hx => ?_⟩
              rcases List.mem_cons.mp hx with hx | hx
              · subst hx; exact hc
              · exact hv.2 x hx
            · exact ih w (by rw [hrec]; exact List.mem_cons_of_mem _ hw)

lemma joinWords_ne_nil {ws : List (List Char)}
    (h : ∀ w ∈ ws, goodWord w) (hne : ws ≠ []) : joinWords ws ≠ [] := by
  cases ws with
  | nil => exact absurd rfl hne
  | cons w tail =>
    cases tail with
    | nil => simpa [joinWords] using (h w (List.mem_cons_self _ _)).1
    | cons x rest =>
      have : joinWords (w :: x :: rest) = w ++ ' ' :: joinWords (x :: rest) := rfl
      simp [this]

lemma string_eq_empty_iff (s : String) : s = "" ↔ s.data = [] := by
  cases s with
  | mk l =>
    constructor
    · intro hs
      rw [hs]
    · intro hl
      simp only at hl
      rw [hl]

lemma string_data_append (s t : String) : (s ++ t).data = s.data ++ t.data := rfl

lemma string_length_data (s : String) : s.length = s.data.length := rfl

lemma addEllipsis_ne_empty {s : String} (hs : s ≠ "") : addEllipsis s ≠ "" := by
  rw [addEllipsis]
  split
  · intro hcontra
    rw [string_eq_empty_iff, string_data_append] at hcontra
    simp at hcontra
  · exact hs

/-- Claim C1: for every fetch outcome (including any error raised deep
inside the fetch-and-extract attempt, modelled by an arbitrary
`Except.error`) and every inline text, `summarise` returns a
(title, preview) pair, and every error is converted into the fallback
path for that article. -/
theorem summarise_never_raises (dl : Except String FetchSuccess)
    (fb : String) :
    (∃ t p, summarise dl fb = (t, p)) ∧
    (∀ err, dl = Except.error err →
      summarise dl fb = ("Untitled (feed)",
        addEllipsis
          (if pyTrunc fb 500 = "" then "(no preview)" else pyTrunc fb 500))) := by
  refine ⟨⟨_, _, rfl⟩, ?_⟩
  rintro err rfl
  rfl

/-- Witness for C1 at a concrete failing fetch outcome. -/
theorem summarise_never_raises_witness :
    summarise (Except.error "dns failure") "hello" =
      ("Untitled (feed)",
        addEllipsis
          (if pyTrunc "hello" 500 = "" then "(no preview)"
           else pyTrunc "hello" 500)) :=
  (summarise_never_raises (Except.error "dns failure") "hello").2
    "dns failure" rfl

/-- Counterexample to C6 as stated: on a failing fetch with non-empty
inline text `"abc"`, the preview is `"abc…"`, not the bare 500-character
truncation `"abc"`; and with empty inline text it is `"(no preview)…"`,
not the bare placeholder `"(no preview)"`. -/
theorem fallback_truncation_cex :
    (summarise (Except.error "net") "abc").2 = "abc…" ∧
    ("abc…" : String) ≠ "abc" ∧
    (summarise (Except.error "net") "").2 = "(no preview)…" ∧
    ("(no preview)…" : String) ≠ "(no preview)" := by decide

/-- Claim C6 (amended): when the fetch-and-extract attempt fails, the
title is the fallback placeholder and the preview is `inline_text`
truncated to 500 characters with an ellipsis then appended whenever the
truncation does not already end in `.`, `!` or `?`; when `inline_text`
is empty the preview is the "no preview" placeholder, again with the
appended ellipsis. -/
theorem fallback_truncation (err fb : String) :
    (summarise (Except.error err) fb).1 = "Untitled (feed)" ∧
    (fb ≠ "" →
      (summarise (Except.error err) fb).2 = addEllipsis (pyTrunc fb 500)) ∧
    (fb = "" → (summarise (Except.error err) fb).2 = "(no preview)…") := by
  refine ⟨rfl, ?_, ?_⟩
  · intro hfb
    have hdata : fb.data ≠ [] := fun hl => hfb ((string_eq_empty_iff fb).mpr hl)
    have htr : pyTrunc fb 500 ≠ "" := by
      intro hcontra
      have h2 : fb.data.take 500 = [] := (string_eq_empty_iff _).mp hcontra
      rcases hd : fb.data with _ | ⟨x, xs⟩
      · exact hdata hd
      · have h3 := congrArg List.length h2
        rw [List.length_take, hd, List.length_cons, List.length_nil] at h3
        omega
    simp [summarise, htr]
  · rintro rfl
    rfl

/-- Witness for C6 (amended) at `inline_text = "abc"`. -/
theorem fallback_truncation_witness :
    (summarise (Except.error "x") "abc").1 = "Untitled (feed)" ∧
    (summarise (Except.error "x") "abc").2 = addEllipsis (pyTrunc "abc" 500) :=
  ⟨(fallback_truncation "x" "abc").1,
   (fallback_truncation "x" "abc").2.1 (by decide)⟩

/-- Claim C9: the "no preview" placeholder is applied on the success path
too — a successfully parsed page whose body text splits into no words
yields the preview `"(no preview)…"` (ellipsis appended since `)` is not
a sentence-ending mark) — and for every input the preview returned by
`summarise` is non-empty. -/
theorem no_preview_nonempty (art : FetchSuccess)
    (dl : Except String FetchSuccess) (fb : String) :
    (pyWords (replaceNewlines art.text) = [] →
      (summarise (Except.ok art) fb).2 = "(no preview)…") ∧
    (summarise dl fb).2 ≠ "" := by
  constructor
  · intro hw
    simp [summarise, hw, joinSp, joinWords]
    decide
  · rcases dl with err | art2
    · simp only [summarise]
      split
      · exact addEllipsis_ne_empty (by decide)
      · next htr => exact addEllipsis_ne_empty htr
    · simp only [summarise]
      split
      · exact addEllipsis_ne_empty (by decide)
      · next hj => exact addEllipsis_ne_empty hj

/-- Witness for C9 on a whitespace-only body. -/
theorem no_preview_nonempty_witness :
    (summarise (Except.ok ⟨"T", " "⟩) "x").2 = "(no preview)…" :=
  (no_preview_nonempty ⟨"T", " "⟩ (Except.ok ⟨"T", " "⟩) "x").1 (by decide)

/-- Claim C10: in the fallback path the ellipsis is appended after the
500-character truncation, so whenever the inline text has at least 500
characters and its 500-character prefix ends in a character other than
`.`, `!` or `?`, the returned preview is 501 characters long. -/
theorem fallback_budget_501 (err fb : String) (h5 : 500 ≤ fb.length)
    (c : Char) (hlast : (pyTrunc fb 500).data.getLast? = some c)
    (hc : c ∉ ['.', '!', '?']) :
    ((summarise (Except.error err) fb).2).length = 501 := by
  have hlen : (pyTrunc fb 500).data.length = 500 := by
    rw [pyTrunc]
    simp only []
    rw [List.length_take]
    rw [string_length_data] at h5
    omega
  have htr : pyTrunc fb 500 ≠ "" := by
    rw [Ne, string_eq_empty_iff]
    intro hnil
    rw [hnil] at hlen
    simp at hlen
  have hends : endsSentence (pyTrunc fb 500) = false := by
    rw [endsSentence, hlast]
    simp only []
    simp at hc
    simp [hc.1, hc.2.1, hc.2.2]
  have : (summarise (Except.error err) fb).2 = pyTrunc fb 500 ++ "…" := by
    simp [summarise, htr, addEllipsis, hends]
  rw [this, string_length_data, string_data_append, List.length_append, hlen]
  rfl

set_option maxRecDepth 4000 in
/-- Witness for C10: 500 copies of `a` give a 501-character preview. -/
theorem fallback_budget_501_witness :
    ((summarise (Except.error "net")
        (String.mk (List.replicate 500 'a'))).2).length = 501 :=
  fallback_budget_501 "net" (String.mk (List.replicate 500 'a'))
    (by decide) 'a' (by decide) (by decide)

/-- Claim C7: for every successfully extracted body that splits into at
least 100 words, the preview is the first 100 words joined with single
spaces (newlines having been collapsed to spaces), possibly followed by
the appended ellipsis, and it contains exactly 100 words. -/
theorem preview_hundred_words (art : FetchSuccess) (fb : String)
    (hlen : 100 ≤ (pyWords (replaceNewlines art.text)).length) :
    ((summarise (Except.ok art) fb).2
        = joinSp ((pyWords (replaceNewlines art.text)).take 100) ∨
      (summarise (Except.ok art) fb).2
        = joinSp ((pyWords (replaceNewlines art.text)).take 100) ++ "…") ∧
    (pyWords (summarise (Except.ok art) fb).2).length = 100 := by
  have hW_good : ∀ w ∈ (splitWords (replaceNewlines art.text).data).take 100,
      goodWord w :=
    fun w hw => splitWords_good _ w (List.take_subset _ _ hw)
  have hlen2 : 100 ≤ (splitWords (replaceNewlines art.text).data).length := by
    rw [pyWords, List.length_map] at hlen
    exact hlen
  have hW_len : ((splitWords (replaceNewlines art.text).data).take 100).length
      = 100 := by
    rw [List.length_take]
    omega
  have hW_ne : (splitWords (replaceNewlines art.text).data).take 100 ≠ [] := by
    intro hnil
    rw [hnil] at hW_len
    simp at hW_len
  have hcomp : String.data ∘ String.mk = id := rfl
  have hjs : joinSp ((pyWords (replaceNewlines art.text)).take 100)
      = String.mk (joinWords
          ((splitWords (replaceNewlines art.text).data).take 100)) := by
    rw [pyWords, ← List.map_take, joinSp, List.map_map, hcomp, List.map_id]
  have hjoin_ne : String.mk (joinWords
      ((splitWords (replaceNewlines art.text).data).take 100)) ≠ "" := by
    rw [Ne, string_eq_empty_iff]
    exact joinWords_ne_nil hW_good hW_ne
  have hsum : (summarise (Except.ok art) fb).2
      = addEllipsis (String.mk (joinWords
          ((splitWords (replaceNewlines art.text).data).take 100))) := by
    simp only [summarise]
    rw [hjs, if_neg hjoin_ne]
  rw [hsum, addEllipsis]
  split
  · constructor
    · right
      rw [hjs]
    · rw [pyWords, List.length_map, string_data_append]
      have hdots : ("…" : String).data = ['…'] := rfl
      rw [hdots]
      have : (String.mk (joinWords
          ((splitWords (replaceNewlines art.text).data).take 100))).data
          = joinWords ((splitWords (replaceNewlines art.text).data).take 100) :=
        rfl
      rw [this, splitWords_joinWords_snoc hW_good hW_ne (by decide), hW_len]
  · constructor
    · left
      rw [hjs]
    · rw [pyWords, List.length_map]
      have : (String.mk (joinWords
          ((splitWords (replaceNewlines art.text).data).take 100))).data
          = joinWords ((splitWords (replaceNewlines art.text).data).take 100) :=
        rfl
      rw [this, splitWords_joinWords hW_good, hW_len]

lemma foldl_preserve {α β : Type} (f : β → α → β) (P : β → Prop)
    (hf : ∀ b a, P b → P (f b a)) :
    ∀ (l : List α) (b : β), P b → P (l.foldl f b) := by
  intro l
  induction l with
  | nil => intro b hb; simpa using hb
  | cons a t ih =>
    intro b hb
    rw [List.foldl_cons]
    exact ih _ (hf b a hb)

lemma foldl_preserve_mem {α β : Type} (f : β → α → β) (P : β → Prop) :
    ∀ (l : List α), (∀ b, ∀ a ∈ l, P b → P (f b a)) →
      ∀ b, P b → P (l.foldl f b) := by
  intro l
  induction l with
  | nil => intro _ b hb; simpa using hb
  | cons a t ih =>
    intro hf b hb
    rw [List.foldl_cons]
    exact ih (fun b2 a2 ha2 => hf b2 a2 (List.mem_cons_of_mem _ ha2)) _
      (hf b a (List.mem_cons_self _ _) hb)

/-- Counterexample to C2 as stated: in scenario A the run does send
exactly one notification with the fallback title, but its preview is the
untouched inline text `"Launch successful today."` (24 characters, under
the 500-character budget, ending in `.` so no ellipsis), not
`"Launch successful…"`. -/
theorem scenario_a_cex :
    (main (fun s => s)
        ⟨fun _ => Except.error "net", fun _ _ _ => true⟩
        [[⟨"https://x/a", "Launch successful today."⟩]] ∅).1.notifications
      = [("Untitled (feed)", "Launch successful today.", "https://x/a")] ∧
    ("Launch successful today." : String) ≠ "Launch successful…" := by
  decide

/-- Claim C2 (amended): scenario A — empty seen set, one adapter yielding
the single candidate (url "https://x/a", inline text
"Launch successful today."), failing fetch, notifier succeeding: the run
sends exactly one notification whose title is the fallback placeholder
and whose preview is "Launch successful today." (inline text under the
budget and already ending in '.', so unchanged), and the seen set saved
at run end is exactly the identity of "https://x/a". -/
theorem scenario_a (h : String → String) (env : Env) (err : String)
    (hfetch : env.fetch "https://x/a" = Except.error err)
    (hnotify : env.notify "Untitled (feed)" "Launch successful today."
      "https://x/a" = true) :
    (main h env [[⟨"https://x/a", "Launch successful today."⟩]]
        ∅).1.notifications
      = [("Untitled (feed)", "Launch successful today.", "https://x/a")] ∧
    (main h env [[⟨"https://x/a", "Launch successful today."⟩]] ∅).2
      = {h "https://x/a"} := by
  have hsum : summarise (env.fetch "https://x/a") "Launch successful today."
      = ("Untitled (feed)", "Launch successful today.") := by
    rw [hfetch]
    rfl
  constructor
  · simp [main, processEntry, hsum, hnotify]
  · simp [main, processEntry, hsum, hnotify]

/-- Witness for C2 (amended) with an always-succeeding notifier. -/
theorem scenario_a_witness :
    (main (fun s => s)
        ⟨fun _ => Except.error "offline", fun _ _ _ => true⟩
        [[⟨"https://x/a", "Launch successful today."⟩]] ∅).1.notifications
      = [("Untitled (feed)", "Launch successful today.", "https://x/a")] ∧
    (main (fun s => s)
        ⟨fun _ => Except.error "offline", fun _ _ _ => true⟩
        [[⟨"https://x/a", "Launch successful today."⟩]] ∅).2
      = {(fun s => s) "https://x/a"} :=
  scenario_a (fun s => s)
    ⟨fun _ => Except.error "offline", fun _ _ _ => true⟩ "offline" rfl rfl

/-- Claim C3: a `send_slack` failure for one candidate leaves the run
state of that candidate untouched (its identity is not added, it is
retried next run), removes nothing from sibling processing — the run
over sources containing the failing candidate equals the run with that
candidate absent — and an identity no processed entry hashes to is never
added to the saved seen set. -/
theorem notify_failure_isolated (h : String → String) (env : Env)
    (seen : Finset String) (e : Entry)
    (hfail : env.notify (summarise (env.fetch e.url) e.summary).1
      (summarise (env.fetch e.url) e.summary).2 e.url = false) :
    (∀ st, processEntry h env seen st e = st) ∧
    (∀ spre pre post spost,
      main h env (spre ++ (pre ++ e :: post) :: spost) seen
        = main h env (spre ++ (pre ++ post) :: spost) seen) ∧
    (∀ (sources : List (List Entry)) (k : String), k ∉ seen →
      (∀ e2 ∈ sources.flatten, h e2.url ≠ k) →
      k ∉ (main h env sources seen).2) := by
  have hid : ∀ st, processEntry h env seen st e = st := by
    intro st
    by_cases hmem : h e.url ∈ seen ∨ h e.url ∈ st.newSeen
    · simp [processEntry, hmem]
    · simp [processEntry, hmem, hfail]
  refine ⟨hid, ?_, ?_⟩
  · intro spre pre post spost
    have hinner : ∀ st : RunState,
        (pre ++ e :: post).foldl (processEntry h env seen) st
          = (pre ++ post).foldl (processEntry h env seen) st := by
      intro st
      rw [List.foldl_append, List.foldl_append, List.foldl_cons, hid]
    simp only [main]
    rw [List.foldl_append, List.foldl_append, List.foldl_cons,
      List.foldl_cons, hinner]
  · intro sources k hk hks
    have hfinal : k ∉ (sources.foldl
        (fun st entries => entries.foldl (processEntry h env seen) st)
        (⟨∅, []⟩ : RunState)).newSeen := by
      refine foldl_preserve_mem
        (fun st entries => entries.foldl (processEntry h env seen) st)
        (fun st2 : RunState => k ∉ st2.newSeen) sources
        ?_ ⟨∅, []⟩ (by simp)
      intro st entries hent hst
      refine foldl_preserve_mem (processEntry h env seen)
        (fun st2 : RunState => k ∉ st2.newSeen) entries
        ?_ st hst
      intro st2 e2 he2 hst2
      have hne : h e2.url ≠ k :=
        hks e2 (List.mem_flatten.mpr ⟨entries, hent, he2⟩)
      simp only [processEntry]
      split_ifs
      · exact hst2
      · rw [Finset.mem_insert]
        rintro (hcontra | hcontra)
        · exact hne hcontra.symm
        · exact hst2 hcontra
      · exact hst2
    simp only [main]
    rw [Finset.mem_union]
    rintro (hcontra | hcontra)
    · exact hk hcontra
    · exact hfinal hcontra

/-- Witness for C3: a notifier that rejects "https://x/b" leaves the
initial state unchanged on that candidate. -/
theorem notify_failure_isolated_witness :
    processEntry (fun s => s)
      ⟨fun _ => Except.error "net", fun _ _ u => decide (u ≠ "https://x/b")⟩
      ∅ ⟨∅, []⟩ ⟨"https://x/b", "B"⟩ = ⟨∅, []⟩ :=
  (notify_failure_isolated (fun s => s)
    ⟨fun _ => Except.error "net", fun _ _ u => decide (u ≠ "https://x/b")⟩
    ∅ ⟨"https://x/b", "B"⟩ (by decide)).1 ⟨∅, []⟩

/-- Claim C4: a candidate whose identity is already in the persisted
seen set or in the identities accumulated this run is skipped with no
side effects (the state is unchanged and the result does not depend on
the fetch or notify oracles); processing the same candidate twice equals
processing it once; and when the identity is fresh and the notifier
succeeds, presenting the candidate twice yields exactly one
notification. -/
theorem dedup_skip (h : String → String) (env env2 : Env)
    (seen : Finset String) (st : RunState) (e : Entry) :
    (h e.url ∈ seen ∨ h e.url ∈ st.newSeen →
      processEntry h env seen st e = st ∧
      processEntry h env seen st e = processEntry h env2 seen st e) ∧
    processEntry h env seen (processEntry h env seen st e) e
      = processEntry h env seen st e ∧
    (h e.url ∉ seen → h e.url ∉ st.newSeen →
      env.notify (summarise (env.fetch e.url) e.summary).1
        (summarise (env.fetch e.url) e.summary).2 e.url = true →
      (processEntry h env seen
        (processEntry h env seen st e) e).notifications.length
        = st.notifications.length + 1) := by
  refine ⟨?_, ?_, ?_⟩
  · intro hmem
    constructor
    · simp [processEntry, hmem]
    · simp [processEntry, hmem]
  · by_cases hmem : h e.url ∈ seen ∨ h e.url ∈ st.newSeen
    · simp [processEntry, hmem]
    · by_cases hnot : env.notify (summarise (env.fetch e.url) e.summary).1
          (summarise (env.fetch e.url) e.summary).2 e.url = true
      · have h1 : processEntry h env seen st e =
            ⟨insert (h e.url) st.newSeen, st.notifications ++
              [((summarise (env.fetch e.url) e.summary).1,
                (summarise (env.fetch e.url) e.summary).2, e.url)]⟩ := by
          simp [processEntry, hmem, hnot]
        rw [h1]
        simp [processEntry]
      · have h1 : processEntry h env seen st e = st := by
          simp [processEntry, hmem, hnot]
        rw [h1]
        exact h1
  · intro h1 h2 hnot
    have hmem : ¬ (h e.url ∈ seen ∨ h e.url ∈ st.newSeen) :=
      not_or.mpr ⟨h1, h2⟩
    have hA : processEntry h env seen st e =
        ⟨insert (h e.url) st.newSeen, st.notifications ++
          [((summarise (env.fetch e.url) e.summary).1,
            (summarise (env.fetch e.url) e.summary).2, e.url)]⟩ := by
      simp [processEntry, hmem, hnot]
    rw [hA]
    simp [processEntry]

/-- Witness for C4: a fresh candidate processed twice with a succeeding
notifier produces exactly one notification. -/
theorem dedup_skip_witness :
    (processEntry (fun s => s)
      ⟨fun _ => Except.error "x", fun _ _ _ => true⟩ ∅
      (processEntry (fun s => s)
        ⟨fun _ => Except.error "x", fun _ _ _ => true⟩ ∅
        ⟨∅, []⟩ ⟨"u", "t"⟩) ⟨"u", "t"⟩).notifications.length
      = (⟨∅, []⟩ : RunState).notifications.length + 1 :=
  (dedup_skip (fun s => s)
    ⟨fun _ => Except.error "x", fun _ _ _ => true⟩
    ⟨fun _ => Except.error "x", fun _ _ _ => true⟩
    ∅ ⟨∅, []⟩ ⟨"u", "t"⟩).2.2 (by decide) (by decide) (by decide)

/-- Claim C5: the saved set is exactly the loaded seen set unioned with
the identities of the articles successfully notified during the run
(written once, at run end, by construction of `main`), hence a superset
of the loaded set; and each candidate step only ever adds identities to
the in-run accumulator, never removes them. -/
theorem seen_set_monotone_saved (h : String → String) (env : Env)
    (sources : List (List Entry)) (seen : Finset String)
    (st : RunState) (e : Entry) :
    (main h env sources seen).2
      = seen ∪ (main h env sources seen).1.newSeen ∧
    seen ⊆ (main h env sources seen).2 ∧
    st.newSeen ⊆ (processEntry h env seen st e).newSeen ∧
    (main h env sources seen).1.newSeen
      = ((main h env sources seen).1.notifications.map
          (fun n => h n.2.2)).toFinset := by
  refine ⟨rfl, ?_, ?_, ?_⟩
  · exact Finset.subset_union_left
  · simp only [processEntry]
    split_ifs
    · exact subset_rfl
    · exact Finset.subset_insert _ _
    · exact subset_rfl
  · have hstep : ∀ (st2 : RunState) (e2 : Entry),
        st2.newSeen = (st2.notifications.map (fun n => h n.2.2)).toFinset →
        (processEntry h env seen st2 e2).newSeen
          = ((processEntry h env seen st2 e2).notifications.map
              (fun n => h n.2.2)).toFinset := by
      intro st2 e2 hinv
      simp only [processEntry]
      split_ifs
      · exact hinv
      · simp only [List.map_append, List.toFinset_append, List.map_cons,
          List.map_nil, hinv]
        rw [Finset.insert_eq, Finset.union_comm]
        simp
      · exact hinv
    exact foldl_preserve
      (fun st2 entries => entries.foldl (processEntry h env seen) st2)
      (fun st2 => st2.newSeen
        = (st2.notifications.map (fun n => h n.2.2)).toFinset)
      (fun b entries hb => foldl_preserve (processEntry h env seen) _
        hstep entries b hb)
      sources ⟨∅, []⟩ (by simp)

/-- Witness for C5 on a concrete one-candidate run starting from a
non-empty seen set. -/
theorem seen_set_monotone_saved_witness :
    ({"k"} : Finset String) ⊆
      (main (fun s => s)
        ⟨fun _ => Except.error "e", fun _ _ _ => true⟩
        [[⟨"u", "t"⟩]] {"k"}).2 :=
  (seen_set_monotone_saved (fun s => s)
    ⟨fun _ => Except.error "e", fun _ _ _ => true⟩
    [[⟨"u", "t"⟩]] {"k"} ⟨∅, []⟩ ⟨"u", "t"⟩).2.1

/-- Claim C8: `load_cache` returns the persisted set when the cache file
exists and parses, the empty set when no file exists, and propagates a
hard error (rather than returning an empty set) when the file exists but
reading or parsing fails. -/
theorem load_cache_spec (rp : Except String (List String)) :
    load_cache false rp = Except.ok ∅ ∧
    (∀ ids, rp = Except.ok ids →
      load_cache true rp = Except.ok ids.toFinset) ∧
    (∀ err, rp = Except.error err →
      load_cache true rp = Except.error err) := by
  refine ⟨rfl, ?_, ?_⟩
  · rintro ids rfl
    rfl
  · rintro err rfl
    rfl

/-- Witness for C8 on a corrupt store. -/
theorem load_cache_spec_witness :
    load_cache true (Except.error "corrupt json") =
      Except.error "corrupt json" :=
  (load_cache_spec (Except.error "corrupt json")).2.2 "corrupt json" rfl

set_option maxRecDepth 4000 in
/-- Witness for C7 on a body of 105 one-letter words. -/
theorem preview_hundred_words_witness :
    ((summarise (Except.ok ⟨"T", joinSp (List.replicate 105 "w")⟩) "").2
        = joinSp ((pyWords (replaceNewlines
            (joinSp (List.replicate 105 "w")))).take 100) ∨
      (summarise (Except.ok ⟨"T", joinSp (List.replicate 105 "w")⟩) "").2
        = joinSp ((pyWords (replaceNewlines
            (joinSp (List.replicate 105 "w")))).take 100) ++ "…") ∧
    (pyWords ((summarise (Except.ok ⟨"T", joinSp (List.replicate 105 "w")⟩)
        "").2)).length = 100 :=
  preview_hundred_words ⟨"T", joinSp (List.replicate 105 "w")⟩ ""
    (by decide)

end NewsBot
